import Mathlib

/-!
Verification of the slotted stack container (inventory) component and the
recipe registry.

The container code is embedded shallowly: the mutable slot slice becomes a
`List Stack` threaded through each operation, the change-notification hook
`f` is tracked as a boolean (attached or replaced by a no-op) together with
an explicit trace of the `(slot, stack)` pairs it is invoked with, and the
two panic sites (`New` on a non-positive size, `check` on a size-0 value)
become `Option`, with `none` standing for the fatal failure.
-/

/-- Modelled from the spec: a resource identity. The maximum quantity per
stack is a property of the resource type, so it is carried here. -/
structure ItemType where
  id : Nat
  maxCount : Nat
deriving DecidableEq, Repr

/-- Modelled from the spec: a stack holds zero or more units of one
resource type. The quantity is never negative. -/
structure Stack where
  itemType : ItemType
  count : Nat
deriving DecidableEq, Repr

/-- Modelled from the spec: `quantity()`. -/
def Stack.Count (s : Stack) : Nat :=
  s.count

/-- Modelled from the spec: `maximumQuantity()`, determined by the resource
type. -/
def Stack.MaxCount (s : Stack) : Nat :=
  s.itemType.maxCount

/-- Modelled from the spec: `isEmpty()` — a stack with quantity 0 is empty. -/
def Stack.Empty (s : Stack) : Bool :=
  s.count == 0

/-- Modelled from the spec: the resource identity held by the stack. -/
def Stack.Item (s : Stack) : ItemType :=
  s.itemType

/-- Modelled from the spec: `isComparable(other)` — true iff the two stacks
hold the same resource identity. -/
def Stack.Comparable (s t : Stack) : Bool :=
  s.itemType == t.itemType

/-- Modelled from the spec: `combine(other)` — merges `other` into the
receiver up to capacity and returns the filled receiver together with the
part of `other` that could not be absorbed. Stacks of different resource
identities cannot be merged, so both come back unchanged. -/
def Stack.AddStack (s t : Stack) : Stack × Stack :=
  if s.Comparable t then
    let absorbed := min t.count (s.MaxCount - s.count)
    ({ s with count := s.count + absorbed }, { t with count := t.count - absorbed })
  else
    (s, t)

/-- Modelled from the spec: `adjust(delta)` — quantity is clamped so it
never goes negative. -/
def Stack.Grow (s : Stack) (n : Int) : Stack :=
  { s with count := ((s.count : Int) + n).toNat }

/-- Modelled from the spec: a fresh stack of a given resource identity and
quantity. -/
def NewStack (i : ItemType) (n : Nat) : Stack :=
  ⟨i, n⟩

/-- The resource identity of the zero value `item.Stack{}` (air). -/
def airType : ItemType :=
  ⟨0, 64⟩

/-- The zero value of a stack: air with a count of 0. `make([]item.Stack, size)`
fills the slots with this value. -/
def emptyStack : Stack :=
  ⟨airType, 0⟩

/-- The errors the inventory returns as ordinary (non-fatal) values. -/
inductive Err where
  | OutOfRange
  | InsufficientCapacity
  | InsufficientQuantity
deriving DecidableEq, Repr

/-- One invocation of the change-notification hook `f`: the slot index and
the stack written to it. -/
abbrev Event := Nat × Stack

/-- The inventory state: the slot slice, plus whether the original hook is
still attached (`Close` replaces it with a no-op). -/
structure Inventory where
  slots : List Stack
  hookActive : Bool
deriving DecidableEq, Repr

/-- The zero value of an `Inventory`: no slots, nil hook. The code calls
this an invalid value that must be constructed through `New`. -/
def zeroInv : Inventory :=
  ⟨[], false⟩

/-- `New(size, f)`: panics (`none`) when `size <= 0`, otherwise allocates
`size` zero-value stacks. -/
def New (size : Int) (hook : Bool) : Option Inventory :=
  if size ≤ 0 then none
  else some ⟨List.replicate size.toNat emptyStack, hook⟩

/-- `Size()`: the length of the slot slice. -/
def Inventory.Size (inv : Inventory) : Nat :=
  inv.slots.length

/-- `validSlot(slot)`: `slot >= 0 && slot < inv.Size()`. -/
def Inventory.validSlot (inv : Inventory) (slot : Int) : Bool :=
  0 ≤ slot && slot < (inv.Size : Int)

/-- `setItem`: overwrite the slot and invoke the hook with the new stack. -/
def Inventory.setItem (inv : Inventory) (slot : Nat) (s : Stack) : Inventory × Event :=
  ({ inv with slots := inv.slots.set slot s }, (slot, s))

/-- `Item(slot)`: `check()` panics (`none`) on a size-0 value; an invalid
slot returns `ErrSlotOutOfRange`; otherwise the slot's stack is read. -/
def Inventory.Item (inv : Inventory) (slot : Int) : Option (Except Err Stack) :=
  if inv.Size = 0 then none
  else if !inv.validSlot slot then some (Except.error Err.OutOfRange)
  else some (Except.ok (inv.slots.getD slot.toNat emptyStack))

/-- `SetItem(slot, item)`: `check()` panics (`none`) on a size-0 value; an
invalid slot returns `ErrSlotOutOfRange` without mutating or notifying;
otherwise the slot is overwritten and the hook invoked once. -/
def Inventory.SetItem (inv : Inventory) (slot : Int) (s : Stack) :
    Option (Except Err Unit × Inventory × List Event) :=
  if inv.Size = 0 then none
  else if !inv.validSlot slot then some (Except.error Err.OutOfRange, inv, [])
  else
    let r := inv.setItem slot.toNat s
    some (Except.ok (), r.1, [r.2])

/-- First pass of `AddItem`, from slot index `i` over the remaining slots:
empty slots are skipped; every non-empty slot is combined with the incoming
stack via `AddStack` and written back (one hook event per write); the pass
stops with `true` as soon as the remainder is empty. Writes only ever touch
the slot currently visited, so the mutated suffix is rebuilt by consing. -/
def addFirst : Nat → List Stack → Stack → List Stack × Stack × List Event × Bool
  | _, [], it => ([], it, [], false)
  | i, invIt :: rest, it =>
    if invIt.Empty then
      let r := addFirst (i + 1) rest it
      (invIt :: r.1, r.2.1, r.2.2.1, r.2.2.2)
    else
      let ab := invIt.AddStack it
      if ab.2.Empty then
        (ab.1 :: rest, ab.2, [(i, ab.1)], true)
      else
        let r := addFirst (i + 1) rest ab.2
        (ab.1 :: r.1, r.2.1, (i, ab.1) :: r.2.2.1, r.2.2.2)

/-- Second pass of `AddItem`: non-empty slots are skipped; for each empty
slot a zero-count stack of the incoming identity is synthesized, combined
with the remainder and written back; the pass stops with `true` as soon as
the remainder is empty. -/
def addSecond : Nat → List Stack → Stack → List Stack × Stack × List Event × Bool
  | _, [], it => ([], it, [], false)
  | i, invIt :: rest, it =>
    if !invIt.Empty then
      let r := addSecond (i + 1) rest it
      (invIt :: r.1, r.2.1, r.2.2.1, r.2.2.2)
    else
      let ab := (NewStack it.Item 0).AddStack it
      if ab.2.Empty then
        (ab.1 :: rest, ab.2, [(i, ab.1)], true)
      else
        let r := addSecond (i + 1) rest ab.2
        (ab.1 :: r.1, r.2.1, (i, ab.1) :: r.2.2.1, r.2.2.2)

/-- `AddItem(it)`: run both passes; if neither emptied the remainder, fail
with the insufficient-capacity error. Slots already written stay written. -/
def Inventory.AddItem (inv : Inventory) (it : Stack) :
    Except Err Unit × Inventory × List Event :=
  let r1 := addFirst 0 inv.slots it
  if r1.2.2.2 then
    (Except.ok (), { inv with slots := r1.1 }, r1.2.2.1)
  else
    let r2 := addSecond 0 r1.1 r1.2.1
    if r2.2.2.2 then
      (Except.ok (), { inv with slots := r2.1 }, r1.2.2.1 ++ r2.2.2.1)
    else
      (Except.error Err.InsufficientCapacity, { inv with slots := r2.1 },
        r1.2.2.1 ++ r2.2.2.1)

/-- The scan of `RemoveItem`, from slot index `i`: empty and non-comparable
slots are skipped; each matching slot is written back shrunk by the running
remainder `toRemove` (clamped at zero by `Grow`), then the remainder drops
by the slot's original count; the scan stops with `true` once the remainder
is `<= 0` after such an update. -/
def removeFrom : Nat → List Stack → Stack → Int → List Stack × Int × List Event × Bool
  | _, [], _, toRemove => ([], toRemove, [], false)
  | i, slotIt :: rest, it, toRemove =>
    if slotIt.Empty then
      let r := removeFrom (i + 1) rest it toRemove
      (slotIt :: r.1, r.2.1, r.2.2.1, r.2.2.2)
    else if !slotIt.Comparable it then
      let r := removeFrom (i + 1) rest it toRemove
      (slotIt :: r.1, r.2.1, r.2.2.1, r.2.2.2)
    else
      let s' := slotIt.Grow (-toRemove)
      let t' := toRemove - (slotIt.Count : Int)
      if t' ≤ 0 then
        (s' :: rest, t', [(i, s')], true)
      else
        let r := removeFrom (i + 1) rest it t'
        (s' :: r.1, r.2.1, (i, s') :: r.2.2.1, r.2.2.2)

/-- `RemoveItem(it)`: scan with the remainder initialized to `it.Count()`;
if the scan exhausted the slots without its stop test firing, fail with the
insufficient-quantity error. Partial withdrawals stay applied. -/
def Inventory.RemoveItem (inv : Inventory) (it : Stack) :
    Except Err Unit × Inventory × List Event :=
  let r := removeFrom 0 inv.slots it (it.Count : Int)
  ((if r.2.2.2 then Except.ok () else Except.error Err.InsufficientQuantity),
    { inv with slots := r.1 }, r.2.2.1)

/-- `Empty()`: true iff every slot's stack is empty. -/
def Inventory.Empty (inv : Inventory) : Bool :=
  inv.slots.all (·.Empty)

/-- `Close()`: replaces the hook with a no-op; the returned error is always
nil (`none`). -/
def Inventory.Close (inv : Inventory) : Option Err × Inventory :=
  (none, { inv with hookActive := false })

/-- One hook event per non-empty slot, in ascending index order starting at
`i`, each carrying that slot's current stack. Used to describe the
notifications of `AddItem`'s first pass over slots none of which can absorb
anything. -/
def nonEmptyEvents : Nat → List Stack → List Event
  | _, [] => []
  | i, s :: rest =>
    if s.Empty then nonEmptyEvents (i + 1) rest
    else (i, s) :: nonEmptyEvents (i + 1) rest

/-- Written from the spec's words for the bulk-remove scan: visit slots in
ascending index order; skip empty slots and slots not comparable to the
requested identity; for each matching slot write back the slot shrunk by
the running remainder with the quantity clamped at zero, then decrease the
remainder by that slot's original pre-shrink quantity; stop successfully
once the remainder is `<= 0` after such an update. -/
def removeScanSpec : Nat → List Stack → Stack → Int → List Stack × Int × List Event × Bool
  | _, [], _, remainder => ([], remainder, [], false)
  | i, s :: rest, req, remainder =>
    if s.Empty then
      let r := removeScanSpec (i + 1) rest req remainder
      (s :: r.1, r.2.1, r.2.2.1, r.2.2.2)
    else if !s.Comparable req then
      let r := removeScanSpec (i + 1) rest req remainder
      (s :: r.1, r.2.1, r.2.2.1, r.2.2.2)
    else
      let written : Stack := { s with count := ((s.count : Int) - remainder).toNat }
      let remainder' := remainder - (s.count : Int)
      if remainder' ≤ 0 then
        (written :: rest, remainder', [(i, written)], true)
      else
        let r := removeScanSpec (i + 1) rest req remainder'
        (written :: r.1, r.2.1, (i, written) :: r.2.2.1, r.2.2.2)

/-- Written from the spec's words for bulk remove: run the scan with the
remainder initialized to the requested quantity; if the scan exhausted all
slots without its stop test firing, fail with the insufficient-quantity
error, keeping the partial withdrawals. -/
def Inventory.RemoveItemSpec (inv : Inventory) (it : Stack) :
    Except Err Unit × Inventory × List Event :=
  let r := removeScanSpec 0 inv.slots it (it.Count : Int)
  ((if r.2.2.2 then Except.ok () else Except.error Err.InsufficientQuantity),
    { inv with slots := r.1 }, r.2.2.1)

/-- One public operation on the container, for stating properties of whole
operation sequences. -/
inductive Op where
  | get (slot : Int)
  | set (slot : Int) (s : Stack)
  | add (s : Stack)
  | remove (s : Stack)
  | isEmpty
  | size
  | close
deriving DecidableEq, Repr

/-- The container state after one public operation. Read-only operations
leave the state as is; a fatal `SetItem` (`none`) ends the run with the
state unchanged. -/
def applyOp (inv : Inventory) : Op → Inventory
  | Op.get _ => inv
  | Op.set slot s =>
    match inv.SetItem slot s with
    | none => inv
    | some r => r.2.1
  | Op.add s => (inv.AddItem s).2.1
  | Op.remove s => (inv.RemoveItem s).2.1
  | Op.isEmpty => inv
  | Op.size => inv
  | Op.close => (inv.Close).2

/-- The container state after a sequence of public operations. -/
def runOps (inv : Inventory) (ops : List Op) : Inventory :=
  ops.foldl applyOp inv

/-- A recipe held by the registry. The registry never inspects a recipe, so
its contents are irrelevant; a tag suffices. -/
structure Recipe where
  tag : Nat
deriving DecidableEq, Repr

/-- `Register(recipe)`: appends the recipe to the registry list. -/
def Register (recipes : List Recipe) (r : Recipe) : List Recipe :=
  recipes ++ [r]

/-- `Recipes()`: returns the registry list. -/
def Recipes (recipes : List Recipe) : List Recipe :=
  recipes

/-- The registry state after a sequence of `Register` calls, starting from
the zero value of the package-level list (nil). -/
def registerAll (rs : List Recipe) : List Recipe :=
  rs.foldl Register []

theorem stack_empty_false {s : Stack} : s.Empty = false ↔ s.count ≠ 0 := by
  simp [Stack.Empty]

theorem addStack_snd_itemType (s t : Stack) : ((s.AddStack t).2).itemType = t.itemType := by
  simp only [Stack.AddStack]
  split <;> rfl

theorem comparable_of_itemType {b it : Stack} (h : b.itemType = it.itemType) (x : Stack) :
    x.Comparable b = x.Comparable it := by
  simp [Stack.Comparable, h]

theorem register_foldl (rs : List Recipe) : ∀ init, rs.foldl Register init = init ++ rs := by
  induction rs with
  | nil => intro init; simp
  | cons r rest ih =>
    intro init
    rw [List.foldl_cons, ih]
    simp [Register]

/-- C9: `Close` always succeeds (returns a nil error), is idempotent, and
changes nothing but the notification hook: the slots are untouched, a
second `Close` produces the same result, and reads behave as before. -/
theorem close_idempotent_frame : ∀ inv : Inventory,
    (inv.Close).1 = none
    ∧ ((inv.Close).2).slots = inv.slots
    ∧ ((inv.Close).2).Close = inv.Close
    ∧ ((inv.Close).2).hookActive = false
    ∧ (∀ slot, ((inv.Close).2).Item slot = inv.Item slot)
    ∧ ((inv.Close).2).Size = inv.Size := by
  intro inv
  exact ⟨rfl, rfl, rfl, rfl, fun _ => rfl, rfl⟩

/-- C10: after any sequence of `Register` calls starting from the empty
registry, `Recipes` returns exactly the registered recipes in registration
order. -/
theorem register_recipes_roundtrip : ∀ rs : List Recipe, Recipes (registerAll rs) = rs := by
  intro rs
  simp [Recipes, registerAll, register_foldl]

/-- C1 counterexample: on the zero-value container (size 0), `AddItem` and
`RemoveItem` return ordinary errors, `Empty` returns `true`, `Size`
returns 0 and `Close` succeeds — none of them fails fatally as the claim
states. -/
theorem zero_value_ops_return_cex :
    (zeroInv.AddItem ⟨⟨1, 64⟩, 3⟩).1 = Except.error Err.InsufficientCapacity
    ∧ (zeroInv.RemoveItem ⟨⟨1, 64⟩, 3⟩).1 = Except.error Err.InsufficientQuantity
    ∧ zeroInv.Empty = true
    ∧ zeroInv.Size = 0
    ∧ (zeroInv.Close).1 = none :=
  ⟨rfl, rfl, rfl, rfl, rfl⟩

/-- C1 (amended): constructing with `size <= 0` fails fatally, and `Item`
and `SetItem` on a size-0 value fail fatally through `check`; but
`AddItem`, `RemoveItem`, `Empty` and `Close` on a size-0 value return
normally (ordinary errors for the first two). -/
theorem new_and_zero_value_guards :
    (∀ size : Int, size ≤ 0 → ∀ hk, New size hk = none)
    ∧ ∀ inv : Inventory, inv.Size = 0 →
        (∀ slot, inv.Item slot = none)
        ∧ (∀ slot s, inv.SetItem slot s = none)
        ∧ (∀ s, (inv.AddItem s).1 = Except.error Err.InsufficientCapacity)
        ∧ (∀ s, (inv.RemoveItem s).1 = Except.error Err.InsufficientQuantity)
        ∧ inv.Empty = true
        ∧ (inv.Close).1 = none := by
  constructor
  · intro size h hk
    simp [New, h]
  · intro inv hsz
    have hn : inv.slots = [] := List.length_eq_zero.mp hsz
    refine ⟨?_, ?_, ?_, ?_, ?_, rfl⟩
    · intro slot; simp [Inventory.Item, hsz]
    · intro slot s; simp [Inventory.SetItem, hsz]
    · intro s; simp [Inventory.AddItem, addFirst, addSecond, hn]
    · intro s; simp [Inventory.RemoveItem, removeFrom, hn]
    · simp [Inventory.Empty, hn]

/-- Witness for the amended C1 at concrete inputs. -/
theorem new_and_zero_value_guards_witness : New 0 true = none ∧ zeroInv.Item 0 = none :=
  ⟨new_and_zero_value_guards.1 0 (by decide) true,
   (new_and_zero_value_guards.2 zeroInv rfl).1 0⟩

/-- C6: for a valid slot, `SetItem` succeeds (overwriting the slot and
notifying once), and an immediate `Item` on the result returns exactly the
stack written. -/
theorem set_then_get (inv : Inventory) (slot : Int) (x : Stack)
    (h0 : 0 ≤ slot) (h1 : slot < (inv.Size : Int)) :
    inv.SetItem slot x =
      some (Except.ok (), { inv with slots := inv.slots.set slot.toNat x }, [(slot.toNat, x)])
    ∧ Inventory.Item { inv with slots := inv.slots.set slot.toNat x } slot
      = some (Except.ok x) := by
  have hlen : slot < (inv.slots.length : Int) := h1
  have hsz : inv.Size ≠ 0 := by
    simp only [Inventory.Size]
    omega
  have hvalid : inv.validSlot slot = true := by
    simp only [Inventory.validSlot, Bool.and_eq_true, decide_eq_true_eq]
    exact ⟨h0, h1⟩
  have hlt : slot.toNat < inv.slots.length := by omega
  constructor
  · simp [Inventory.SetItem, hsz, hvalid, Inventory.setItem]
  · have hsz' : (({ inv with slots := inv.slots.set slot.toNat x } : Inventory)).Size ≠ 0 := by
      simp only [Inventory.Size, List.length_set]
      omega
    have hvalid' : (({ inv with slots := inv.slots.set slot.toNat x } : Inventory)).validSlot slot = true := by
      simp only [Inventory.validSlot, Inventory.Size, List.length_set, Bool.and_eq_true,
        decide_eq_true_eq]
      exact ⟨h0, hlen⟩
    simp [Inventory.Item, hsz', hvalid', List.getD_eq_getElem?_getD, List.getElem?_set_self hlt]

/-- Witness for C6 at a concrete container, slot and stack. -/
theorem set_then_get_witness :
    Inventory.SetItem ⟨[emptyStack, emptyStack], true⟩ 1 ⟨⟨1, 64⟩, 5⟩ =
      some (Except.ok (),
        ⟨[emptyStack, ⟨⟨1, 64⟩, 5⟩], true⟩, [(1, ⟨⟨1, 64⟩, 5⟩)])
    ∧ Inventory.Item (⟨[emptyStack, ⟨⟨1, 64⟩, 5⟩], true⟩ : Inventory) 1
      = some (Except.ok ⟨⟨1, 64⟩, 5⟩) := by
  have h := set_then_get ⟨[emptyStack, emptyStack], true⟩ 1 ⟨⟨1, 64⟩, 5⟩ (by decide) (by decide)
  simpa using h

/-- C7: with a slot index below 0 or at least `Size`, `Item` and `SetItem`
on a constructed (non-size-0) container return the out-of-range error,
mutate nothing and notify nothing. -/
theorem out_of_range_get_set (inv : Inventory) (slot : Int)
    (hsz : inv.Size ≠ 0) (h : slot < 0 ∨ (inv.Size : Int) ≤ slot) :
    inv.Item slot = some (Except.error Err.OutOfRange)
    ∧ ∀ x, inv.SetItem slot x = some (Except.error Err.OutOfRange, inv, []) := by
  have hvalid : inv.validSlot slot = false := by
    simp only [Inventory.validSlot, Bool.and_eq_false_iff, decide_eq_false_iff_not]
    omega
  constructor
  · simp [Inventory.Item, hsz, hvalid]
  · intro x; simp [Inventory.SetItem, hsz, hvalid]

/-- Witness for C7 at a concrete container and slot. -/
theorem out_of_range_get_set_witness :
    Inventory.Item ⟨[emptyStack], true⟩ 3 = some (Except.error Err.OutOfRange)
    ∧ Inventory.SetItem ⟨[emptyStack], true⟩ 3 ⟨⟨1, 64⟩, 5⟩ =
        some (Except.error Err.OutOfRange, ⟨[emptyStack], true⟩, []) := by
  have h := out_of_range_get_set ⟨[emptyStack], true⟩ 3 (by decide) (by decide)
  exact ⟨h.1, h.2 ⟨⟨1, 64⟩, 5⟩⟩

/-- C2 counterexample: adding a stack of one resource to a container whose
only slot holds an incomparable stack still triggers a change notification
for that slot (carrying its unchanged contents), although the claim says
such slots trigger none. -/
theorem incomparable_slot_notified_cex :
    (Inventory.AddItem ⟨[⟨⟨2, 64⟩, 5⟩], true⟩ ⟨⟨1, 64⟩, 3⟩).2.2 = [(0, ⟨⟨2, 64⟩, 5⟩)]
    ∧ Stack.Comparable ⟨⟨2, 64⟩, 5⟩ ⟨⟨1, 64⟩, 3⟩ = false :=
  ⟨rfl, rfl⟩

/-- C2 (amended): during the first pass every non-empty slot is written
back with a notification, comparable or not — when no slot is comparable
to the (non-empty) incoming stack, the slot contents and the incoming
stack come back unchanged, yet one notification fires per non-empty slot,
while empty slots are skipped: every notification of the pass belongs to a
slot that was non-empty. -/
theorem addFirst_notification_behavior :
    (∀ (slots : List Stack) (i : Nat) (it : Stack), it.Empty = false →
        (∀ s ∈ slots, s.Comparable it = false) →
        addFirst i slots it = (slots, it, nonEmptyEvents i slots, false))
    ∧ (∀ (slots : List Stack) (i : Nat) (it : Stack) (ev : Event),
        ev ∈ (addFirst i slots it).2.2.1 →
        ∃ j, j < slots.length ∧ ev.1 = i + j ∧ (slots.getD j emptyStack).Empty = false) := by
  constructor
  · intro slots
    induction slots with
    | nil => intro i it hIt hC; rfl
    | cons s rest ih =>
      intro i it hIt hC
      have hCs : s.Comparable it = false := hC s (List.mem_cons_self s rest)
      have hCrest : ∀ x ∈ rest, x.Comparable it = false :=
        fun x hx => hC x (List.mem_cons_of_mem s hx)
      cases hE : s.Empty with
      | true =>
        simp [addFirst, hE, nonEmptyEvents, ih (i + 1) it hIt hCrest]
      | false =>
        have hAdd : s.AddStack it = (s, it) := by simp [Stack.AddStack, hCs]
        simp [addFirst, hE, hAdd, hIt, nonEmptyEvents, ih (i + 1) it hIt hCrest]
  · intro slots
    induction slots with
    | nil => intro i it ev hev; simp [addFirst] at hev
    | cons s rest ih =>
      intro i it ev hev
      cases hE : s.Empty with
      | true =>
        simp only [addFirst, hE, if_true] at hev
        obtain ⟨j, hj, h1, h2⟩ := ih (i + 1) it ev hev
        exact ⟨j + 1, by simp; omega, by omega, by simpa using h2⟩
      | false =>
        cases hb : (s.AddStack it).2.Empty with
        | true =>
          simp only [addFirst, hE, hb] at hev
          simp at hev
          exact ⟨0, by simp, by simp [hev], by simp [hE]⟩
        | false =>
          simp only [addFirst, hE, hb] at hev
          simp at hev
          rcases hev with hev | hev
          · exact ⟨0, by simp, by simp [hev], by simp [hE]⟩
          · obtain ⟨j, hj, h1, h2⟩ := ih (i + 1) (s.AddStack it).2 ev hev
            exact ⟨j + 1, by simp; omega, by omega, by simpa using h2⟩

/-- Witness for the amended C2: one incomparable non-empty slot is left
unchanged but notified, and the pass does not finish early. -/
theorem addFirst_notification_witness :
    addFirst 0 [⟨⟨2, 64⟩, 5⟩] ⟨⟨1, 64⟩, 3⟩
      = ([⟨⟨2, 64⟩, 5⟩], ⟨⟨1, 64⟩, 3⟩, [(0, ⟨⟨2, 64⟩, 5⟩)], false) := by
  have h := addFirst_notification_behavior.1 [⟨⟨2, 64⟩, 5⟩] 0 ⟨⟨1, 64⟩, 3⟩
    (by decide) (by decide)
  simpa [nonEmptyEvents] using h

theorem removeFrom_eq_spec (slots : List Stack) :
    ∀ (i : Nat) (it : Stack) (tr : Int), removeFrom i slots it tr = removeScanSpec i slots it tr := by
  induction slots with
  | nil => intro i it tr; rfl
  | cons s rest ih =>
    intro i it tr
    cases hE : s.Empty with
    | true => simp [removeFrom, removeScanSpec, hE, ih]
    | false =>
      cases hC : s.Comparable it with
      | false => simp [removeFrom, removeScanSpec, hE, hC, ih]
      | true =>
        have hgrow : s.Grow (-tr) = { s with count := ((s.count : Int) - tr).toNat } := by
          simp [Stack.Grow, Int.sub_eq_add_neg]
        by_cases ht : tr - (s.count : Int) ≤ 0
        · simp [removeFrom, removeScanSpec, hE, hC, ht, hgrow, Stack.Count]
        · simp [removeFrom, removeScanSpec, hE, hC, ht, hgrow, Stack.Count, ih]

/-- C3 (amended): `RemoveItem` coincides with the scan written from the
spec's words — ascending order, empty and non-comparable slots skipped,
each matching slot written back shrunk by the running remainder clamped at
zero, the remainder then decreased by the slot's original quantity — with
the success test made only after processing a matching slot, so a scan
that exhausts the slots fails with the insufficient-quantity error even
when the remainder was never positive. -/
theorem removeItem_matches_spec_scan :
    ∀ (inv : Inventory) (it : Stack), inv.RemoveItem it = inv.RemoveItemSpec it := by
  intro inv it
  simp [Inventory.RemoveItem, Inventory.RemoveItemSpec, removeFrom_eq_spec]

/-- C3 counterexample: removing a zero-quantity stack when no comparable
non-empty slot exists fails with the insufficient-quantity error although
the running remainder (the requested quantity, 0) is not positive — the
claim instead promises success as soon as the remainder is `<= 0`. -/
theorem removeItem_zero_count_cex :
    ((⟨[⟨⟨2, 64⟩, 5⟩], true⟩ : Inventory).RemoveItem ⟨⟨1, 64⟩, 0⟩).1
      = Except.error Err.InsufficientQuantity
    ∧ ((⟨⟨1, 64⟩, 0⟩ : Stack).Count : Int) ≤ 0 :=
  ⟨rfl, by decide⟩

theorem addFirst_length (slots : List Stack) :
    ∀ (i : Nat) (it : Stack), (addFirst i slots it).1.length = slots.length := by
  induction slots with
  | nil => intro i it; rfl
  | cons s rest ih =>
    intro i it
    cases hE : s.Empty with
    | true => simp [addFirst, hE, ih]
    | false =>
      cases hb : (s.AddStack it).2.Empty with
      | true => simp [addFirst, hE, hb]
      | false => simp [addFirst, hE, hb, ih]

theorem addSecond_length (slots : List Stack) :
    ∀ (i : Nat) (it : Stack), (addSecond i slots it).1.length = slots.length := by
  induction slots with
  | nil => intro i it; rfl
  | cons s rest ih =>
    intro i it
    cases hE : s.Empty with
    | false => simp [addSecond, hE, ih]
    | true =>
      cases hb : ((NewStack it.Item 0).AddStack it).2.Empty with
      | true => simp [addSecond, hE, hb]
      | false => simp [addSecond, hE, hb, ih]

theorem removeFrom_length (slots : List Stack) :
    ∀ (i : Nat) (it : Stack) (tr : Int), (removeFrom i slots it tr).1.length = slots.length := by
  induction slots with
  | nil => intro i it tr; rfl
  | cons s rest ih =>
    intro i it tr
    cases hE : s.Empty with
    | true => simp [removeFrom, hE, ih]
    | false =>
      cases hC : s.Comparable it with
      | false => simp [removeFrom, hE, hC, ih]
      | true =>
        by_cases ht : tr - (s.Count : Int) ≤ 0
        · simp [removeFrom, hE, hC, ht]
        · simp [removeFrom, hE, hC, ht, ih]

theorem setItem_some_size (inv : Inventory) (slot : Int) (s : Stack)
    (r : Except Err Unit × Inventory × List Event) (h : inv.SetItem slot s = some r) :
    r.2.1.Size = inv.Size := by
  simp only [Inventory.SetItem] at h
  split at h
  · cases h
  · split at h
    · cases h
      rfl
    · cases h
      simp [Inventory.Size, Inventory.setItem]

theorem addItem_size (inv : Inventory) (s : Stack) :
    ((inv.AddItem s).2.1).Size = inv.Size := by
  by_cases h1 : (addFirst 0 inv.slots s).2.2.2 = true
  · simp [Inventory.AddItem, h1, Inventory.Size, addFirst_length]
  · by_cases h2 : (addSecond 0 (addFirst 0 inv.slots s).1 (addFirst 0 inv.slots s).2.1).2.2.2 = true
    · simp [Inventory.AddItem, h1, h2, Inventory.Size, addSecond_length, addFirst_length]
    · simp [Inventory.AddItem, h1, h2, Inventory.Size, addSecond_length, addFirst_length]

theorem removeItem_size (inv : Inventory) (s : Stack) :
    ((inv.RemoveItem s).2.1).Size = inv.Size := by
  simp [Inventory.RemoveItem, Inventory.Size, removeFrom_length]

theorem applyOp_size (inv : Inventory) (op : Op) : (applyOp inv op).Size = inv.Size := by
  cases op with
  | get slot => rfl
  | set slot s =>
    simp only [applyOp]
    cases hm : inv.SetItem slot s with
    | none => rfl
    | some r => exact setItem_some_size inv slot s r hm
  | add s => exact addItem_size inv s
  | remove s => exact removeItem_size inv s
  | isEmpty => rfl
  | size => rfl
  | close => rfl

theorem runOps_size (ops : List Op) : ∀ inv : Inventory, (runOps inv ops).Size = inv.Size := by
  induction ops with
  | nil => intro inv; rfl
  | cons op rest ih =>
    intro inv
    calc (runOps inv (op :: rest)).Size = (runOps (applyOp inv op) rest).Size := rfl
    _ = (applyOp inv op).Size := ih (applyOp inv op)
    _ = inv.Size := applyOp_size inv op

/-- C8: a container constructed by `New` with a positive size reports that
same size after every sequence of public operations. -/
theorem size_constant_over_ops (size : Int) (hk : Bool) (inv : Inventory)
    (h : New size hk = some inv) (ops : List Op) :
    ((runOps inv ops).Size : Int) = size := by
  by_cases hpos : size ≤ 0
  · simp [New, hpos] at h
  · have hinv : inv = ⟨List.replicate size.toNat emptyStack, hk⟩ := by
      simp [New, hpos] at h
      exact h.symm
    have hsz : inv.Size = size.toNat := by
      rw [hinv]
      simp [Inventory.Size]
    rw [runOps_size ops inv, hsz]
    omega

/-- Witness for C8 at a concrete container and operation sequence. -/
theorem size_constant_over_ops_witness :
    ((runOps ⟨[emptyStack, emptyStack], true⟩
        [Op.add ⟨⟨1, 64⟩, 3⟩, Op.set 0 ⟨⟨2, 64⟩, 7⟩, Op.close]).Size : Int) = 2 :=
  size_constant_over_ops 2 true ⟨[emptyStack, emptyStack], true⟩ (by rfl)
    [Op.add ⟨⟨1, 64⟩, 3⟩, Op.set 0 ⟨⟨2, 64⟩, 7⟩, Op.close]

theorem addFirst_all_empty (slots : List Stack) :
    ∀ (i : Nat) (it : Stack), (∀ s ∈ slots, s.Empty = true) →
    addFirst i slots it = (slots, it, [], false) := by
  induction slots with
  | nil => intro i it _; rfl
  | cons s rest ih =>
    intro i it hall
    have hs : s.Empty = true := hall s (List.mem_cons_self s rest)
    have hrest : ∀ x ∈ rest, x.Empty = true := fun x hx => hall x (List.mem_cons_of_mem s hx)
    simp [addFirst, hs, ih (i + 1) it hrest]

/-- C4 (amended): on a fully empty container with at least one slot, adding
a stack of a positive quantity `q` within the resource's per-stack maximum
and then removing a stack of the same identity and quantity both succeed
and leave the container fully empty again. -/
theorem add_remove_roundtrip (inv : Inventory) (tid : ItemType) (q : Nat)
    (hEmpty : inv.Empty = true) (hLen : 1 ≤ inv.slots.length)
    (hq : 1 ≤ q) (hcap : q ≤ tid.maxCount) :
    (inv.AddItem ⟨tid, q⟩).1 = Except.ok ()
    ∧ (((inv.AddItem ⟨tid, q⟩).2.1).RemoveItem ⟨tid, q⟩).1 = Except.ok ()
    ∧ ((((inv.AddItem ⟨tid, q⟩).2.1).RemoveItem ⟨tid, q⟩).2.1).Empty = true := by
  obtain ⟨s0, rest, hrw⟩ : ∃ s0 rest, inv.slots = s0 :: rest := by
    cases h : inv.slots with
    | nil => rw [h] at hLen; simp at hLen
    | cons a l => exact ⟨a, l, rfl⟩
  have hall : ∀ s ∈ inv.slots, s.Empty = true := by
    simpa [Inventory.Empty, List.all_eq_true] using hEmpty
  have hs0 : s0.Empty = true := hall s0 (by rw [hrw]; exact List.mem_cons_self s0 rest)
  have hrest : ∀ s ∈ rest, s.Empty = true :=
    fun s hs => hall s (by rw [hrw]; exact List.mem_cons_of_mem s0 hs)
  have h1 : addFirst 0 inv.slots ⟨tid, q⟩ = (inv.slots, ⟨tid, q⟩, [], false) :=
    addFirst_all_empty inv.slots 0 ⟨tid, q⟩ hall
  have hs0' : s0.count = 0 := by simpa [Stack.Empty] using hs0
  have habs : min q tid.maxCount = q := min_eq_left hcap
  have h2 : addSecond 0 inv.slots ⟨tid, q⟩
      = ((⟨tid, q⟩ : Stack) :: rest, ⟨tid, 0⟩, [(0, ⟨tid, q⟩)], true) := by
    rw [hrw]
    simp [addSecond, hs0', NewStack, Stack.Item, Stack.AddStack, Stack.Comparable,
      Stack.MaxCount, Stack.Empty, Nat.sub_zero, habs, Nat.sub_self]
  have hAdd : inv.AddItem ⟨tid, q⟩
      = (Except.ok (), { inv with slots := (⟨tid, q⟩ : Stack) :: rest }, [(0, ⟨tid, q⟩)]) := by
    simp [Inventory.AddItem, h1, h2]
  have hne : (⟨tid, q⟩ : Stack).Empty = false := by
    simp [Stack.Empty]
    omega
  have hgrow : ((q : Int) + -(q : Int)).toNat = 0 := by omega
  have hrem : removeFrom 0 ((⟨tid, q⟩ : Stack) :: rest) ⟨tid, q⟩ ((q : Nat) : Int)
      = ((⟨tid, 0⟩ : Stack) :: rest, 0, [(0, ⟨tid, 0⟩)], true) := by
    simp [removeFrom, hne, Stack.Comparable, Stack.Grow, Stack.Count, hgrow]
  have hRem : ({ inv with slots := (⟨tid, q⟩ : Stack) :: rest } : Inventory).RemoveItem ⟨tid, q⟩
      = (Except.ok (), { inv with slots := (⟨tid, 0⟩ : Stack) :: rest }, [(0, ⟨tid, 0⟩)]) := by
    simp [Inventory.RemoveItem, Stack.Count, hrem]
  refine ⟨by rw [hAdd], by rw [hAdd]; rw [hRem], ?_⟩
  rw [hAdd]
  simp only
  rw [hRem]
  simp only [Inventory.Empty, List.all_cons, List.all_eq_true, Bool.and_eq_true]
  exact ⟨rfl, fun s hs => hrest s hs⟩

/-- Witness for the amended C4 at a concrete container, identity and
quantity. -/
theorem add_remove_roundtrip_witness :
    ((⟨[emptyStack], true⟩ : Inventory).AddItem ⟨⟨1, 64⟩, 5⟩).1 = Except.ok ()
    ∧ ((((⟨[emptyStack], true⟩ : Inventory).AddItem ⟨⟨1, 64⟩, 5⟩).2.1).RemoveItem
        ⟨⟨1, 64⟩, 5⟩).1 = Except.ok ()
    ∧ (((((⟨[emptyStack], true⟩ : Inventory).AddItem ⟨⟨1, 64⟩, 5⟩).2.1).RemoveItem
        ⟨⟨1, 64⟩, 5⟩).2.1).Empty = true :=
  add_remove_roundtrip ⟨[emptyStack], true⟩ ⟨1, 64⟩ 5 (by decide) (by decide)
    (by decide) (by decide)

/-- C4 counterexample: with quantity 0 (allowed by the claim, since every
slot's capacity is `>= 0`), the add succeeds but the subsequent remove
fails with the insufficient-quantity error instead of succeeding. -/
theorem add_remove_roundtrip_zero_cex :
    ((⟨[⟨⟨1, 64⟩, 0⟩], true⟩ : Inventory).AddItem ⟨⟨1, 64⟩, 0⟩).1 = Except.ok ()
    ∧ ((((⟨[⟨⟨1, 64⟩, 0⟩], true⟩ : Inventory).AddItem ⟨⟨1, 64⟩, 0⟩).2.1).RemoveItem
        ⟨⟨1, 64⟩, 0⟩).1 = Except.error Err.InsufficientQuantity
    ∧ (⟨[⟨⟨1, 64⟩, 0⟩], true⟩ : Inventory).Empty = true :=
  ⟨rfl, rfl, rfl⟩

theorem addFirst_not_done : ∀ (slots : List Stack) (i : Nat) (it : Stack)
    (sl : List Stack) (it2 : Stack) (ev : List Event),
    it.Empty = false →
    addFirst i slots it = (sl, it2, ev, false) →
    it2.Empty = false ∧ it2.itemType = it.itemType
    ∧ ∀ s ∈ sl, s.Empty = false → s.Comparable it = true → s.MaxCount ≤ s.count := by
  intro slots
  induction slots with
  | nil =>
    intro i it sl it2 ev hIt heq
    have h1 : sl = [] := (congrArg Prod.fst heq).symm
    have h2 : it = it2 := congrArg (fun p => p.2.1) heq
    subst h1
    subst h2
    exact ⟨hIt, rfl, by simp⟩
  | cons s rest ih =>
    intro i it sl it2 ev hIt heq
    cases hE : s.Empty with
    | true =>
      have hstep : addFirst i (s :: rest) it
          = (s :: (addFirst (i + 1) rest it).1, (addFirst (i + 1) rest it).2.1,
             (addFirst (i + 1) rest it).2.2.1, (addFirst (i + 1) rest it).2.2.2) := by
        simp [addFirst, hE]
      rw [hstep] at heq
      have h1 : sl = s :: (addFirst (i + 1) rest it).1 := (congrArg Prod.fst heq).symm
      have h2 : (addFirst (i + 1) rest it).2.1 = it2 := congrArg (fun p => p.2.1) heq
      have h3 : (addFirst (i + 1) rest it).2.2.2 = false := congrArg (fun p => p.2.2.2) heq
      have heq' : addFirst (i + 1) rest it
          = ((addFirst (i + 1) rest it).1, (addFirst (i + 1) rest it).2.1,
             (addFirst (i + 1) rest it).2.2.1, false) := by
        rw [← h3]
      obtain ⟨ha, hb2, hc⟩ := ih (i + 1) it _ _ _ hIt heq'
      rw [h2] at ha hb2
      subst h1
      refine ⟨ha, hb2, ?_⟩
      intro x hx hxe hxc
      rcases List.mem_cons.mp hx with h0 | hr
      · rw [h0, hE] at hxe
        cases hxe
      · exact hc x hr hxe hxc
    | false =>
      cases hb : (s.AddStack it).2.Empty with
      | true =>
        have hstep : addFirst i (s :: rest) it
            = ((s.AddStack it).1 :: rest, (s.AddStack it).2, [(i, (s.AddStack it).1)], true) := by
          simp [addFirst, hE, hb]
        rw [hstep] at heq
        have h4 : true = false := congrArg (fun p => p.2.2.2) heq
        cases h4
      | false =>
        have hstep : addFirst i (s :: rest) it
            = ((s.AddStack it).1 :: (addFirst (i + 1) rest (s.AddStack it).2).1,
               (addFirst (i + 1) rest (s.AddStack it).2).2.1,
               (i, (s.AddStack it).1) :: (addFirst (i + 1) rest (s.AddStack it).2).2.2.1,
               (addFirst (i + 1) rest (s.AddStack it).2).2.2.2) := by
          simp [addFirst, hE, hb]
        rw [hstep] at heq
        have h1 : sl = (s.AddStack it).1 :: (addFirst (i + 1) rest (s.AddStack it).2).1 :=
          (congrArg Prod.fst heq).symm
        have h2 : (addFirst (i + 1) rest (s.AddStack it).2).2.1 = it2 :=
          congrArg (fun p => p.2.1) heq
        have h3 : (addFirst (i + 1) rest (s.AddStack it).2).2.2.2 = false :=
          congrArg (fun p => p.2.2.2) heq
        have heq' : addFirst (i + 1) rest (s.AddStack it).2
            = ((addFirst (i + 1) rest (s.AddStack it).2).1,
               (addFirst (i + 1) rest (s.AddStack it).2).2.1,
               (addFirst (i + 1) rest (s.AddStack it).2).2.2.1, false) := by
          rw [← h3]
        have hty : ((s.AddStack it).2).itemType = it.itemType := addStack_snd_itemType s it
        obtain ⟨ha, hb2, hc⟩ := ih (i + 1) (s.AddStack it).2 _ _ _ hb heq'
        rw [h2] at ha hb2
        subst h1
        refine ⟨ha, hb2.trans hty, ?_⟩
        intro x hx hxe hxc
        rcases List.mem_cons.mp hx with h0 | hr
        · subst h0
          cases hCs : s.Comparable it with
          | false =>
            have hadd : s.AddStack it = (s, it) := by simp [Stack.AddStack, hCs]
            rw [hadd] at hxc
            rw [hCs] at hxc
            cases hxc
          | true =>
            have hadd : s.AddStack it
                = ({ s with count := s.count + min it.count (s.MaxCount - s.count) },
                   { it with count := it.count - min it.count (s.MaxCount - s.count) }) := by
              simp [Stack.AddStack, hCs]
            have hbne : it.count - min it.count (s.MaxCount - s.count) ≠ 0 := by
              rw [hadd] at hb
              simpa [Stack.Empty] using hb
            rw [hadd]
            simp only [Stack.MaxCount]
            simp only [Stack.MaxCount] at hbne
            omega
        · refine hc x hr hxe ?_
          rw [comparable_of_itemType hty x]
          exact hxc

theorem addSecond_not_done : ∀ (slots : List Stack) (i : Nat) (it : Stack)
    (sl : List Stack) (it2 : Stack) (ev : List Event),
    it.Empty = false →
    addSecond i slots it = (sl, it2, ev, false) →
    (∀ s ∈ slots, s.Empty = false → s.Comparable it = true → s.MaxCount ≤ s.count) →
    ∀ s ∈ sl, (s.Empty = true ∨ s.Comparable it = true) → s.MaxCount ≤ s.count := by
  intro slots
  induction slots with
  | nil =>
    intro i it sl it2 ev hIt heq hin
    have h1 : sl = [] := (congrArg Prod.fst heq).symm
    subst h1
    simp
  | cons s rest ih =>
    intro i it sl it2 ev hIt heq hin
    have hins : s.Empty = false → s.Comparable it = true → s.MaxCount ≤ s.count :=
      hin s (List.mem_cons_self s rest)
    have hinr : ∀ x ∈ rest, x.Empty = false → x.Comparable it = true → x.MaxCount ≤ x.count :=
      fun x hx => hin x (List.mem_cons_of_mem s hx)
    cases hE : s.Empty with
    | false =>
      have hstep : addSecond i (s :: rest) it
          = (s :: (addSecond (i + 1) rest it).1, (addSecond (i + 1) rest it).2.1,
             (addSecond (i + 1) rest it).2.2.1, (addSecond (i + 1) rest it).2.2.2) := by
        simp [addSecond, hE]
      rw [hstep] at heq
      have h1 : sl = s :: (addSecond (i + 1) rest it).1 := (congrArg Prod.fst heq).symm
      have h3 : (addSecond (i + 1) rest it).2.2.2 = false := congrArg (fun p => p.2.2.2) heq
      have heq' : addSecond (i + 1) rest it
          = ((addSecond (i + 1) rest it).1, (addSecond (i + 1) rest it).2.1,
             (addSecond (i + 1) rest it).2.2.1, false) := by
        rw [← h3]
      have hrec := ih (i + 1) it _ _ _ hIt heq' hinr
      subst h1
      intro x hx hcond
      rcases List.mem_cons.mp hx with h0 | hr
      · subst h0
        rcases hcond with hc | hc
        · rw [hE] at hc
          cases hc
        · exact hins hE hc
      · exact hrec x hr hcond
    | true =>
      have hadd : (NewStack it.Item 0).AddStack it
          = (⟨it.itemType, min it.count it.itemType.maxCount⟩,
             ⟨it.itemType, it.count - min it.count it.itemType.maxCount⟩) := by
        simp [Stack.AddStack, Stack.Comparable, NewStack, Stack.Item, Stack.MaxCount]
      cases hb : ((NewStack it.Item 0).AddStack it).2.Empty with
      | true =>
        have hstep : addSecond i (s :: rest) it
            = (((NewStack it.Item 0).AddStack it).1 :: rest,
               ((NewStack it.Item 0).AddStack it).2,
               [(i, ((NewStack it.Item 0).AddStack it).1)], true) := by
          simp [addSecond, hE, hb]
        rw [hstep] at heq
        have h4 : true = false := congrArg (fun p => p.2.2.2) heq
        cases h4
      | false =>
        have hstep : addSecond i (s :: rest) it
            = (((NewStack it.Item 0).AddStack it).1 ::
                 (addSecond (i + 1) rest ((NewStack it.Item 0).AddStack it).2).1,
               (addSecond (i + 1) rest ((NewStack it.Item 0).AddStack it).2).2.1,
               (i, ((NewStack it.Item 0).AddStack it).1) ::
                 (addSecond (i + 1) rest ((NewStack it.Item 0).AddStack it).2).2.2.1,
               (addSecond (i + 1) rest ((NewStack it.Item 0).AddStack it).2).2.2.2) := by
          simp [addSecond, hE, hb]
        rw [hstep] at heq
        have h1 : sl = ((NewStack it.Item 0).AddStack it).1 ::
            (addSecond (i + 1) rest ((NewStack it.Item 0).AddStack it).2).1 :=
          (congrArg Prod.fst heq).symm
        have h3 : (addSecond (i + 1) rest ((NewStack it.Item 0).AddStack it).2).2.2.2 = false :=
          congrArg (fun p => p.2.2.2) heq
        have heq' : addSecond (i + 1) rest ((NewStack it.Item 0).AddStack it).2
            = ((addSecond (i + 1) rest ((NewStack it.Item 0).AddStack it).2).1,
               (addSecond (i + 1) rest ((NewStack it.Item 0).AddStack it).2).2.1,
               (addSecond (i + 1) rest ((NewStack it.Item 0).AddStack it).2).2.2.1, false) := by
          rw [← h3]
        have hty : (((NewStack it.Item 0).AddStack it).2).itemType = it.itemType :=
          addStack_snd_itemType (NewStack it.Item 0) it
        have hbne : it.count - min it.count it.itemType.maxCount ≠ 0 := by
          rw [hadd] at hb
          simpa [Stack.Empty] using hb
        have hinr' : ∀ x ∈ rest, x.Empty = false →
            x.Comparable ((NewStack it.Item 0).AddStack it).2 = true → x.MaxCount ≤ x.count := by
          intro x hx he hcx
          refine hinr x hx he ?_
          rw [← comparable_of_itemType hty x]
          exact hcx
        have hrec := ih (i + 1) ((NewStack it.Item 0).AddStack it).2 _ _ _ hb heq' hinr'
        subst h1
        intro x hx hcond
        rcases List.mem_cons.mp hx with h0 | hr
        · subst h0
          rw [hadd]
          simp only [Stack.MaxCount]
          omega
        · refine hrec x hr ?_
          rcases hcond with hc | hc
          · exact Or.inl hc
          · refine Or.inr ?_
            rw [comparable_of_itemType hty x]
            exact hc

theorem addFirst_empty_it : ∀ (slots : List Stack) (i : Nat) (it : Stack)
    (sl : List Stack) (it2 : Stack) (ev : List Event),
    it.Empty = true →
    addFirst i slots it = (sl, it2, ev, false) →
    sl = slots ∧ it2 = it ∧ ∀ s ∈ slots, s.Empty = true := by
  intro slots
  induction slots with
  | nil =>
    intro i it sl it2 ev hIt heq
    have h1 : sl = [] := (congrArg Prod.fst heq).symm
    have h2 : it = it2 := congrArg (fun p => p.2.1) heq
    exact ⟨h1, h2.symm, by simp⟩
  | cons s rest ih =>
    intro i it sl it2 ev hIt heq
    cases hE : s.Empty with
    | true =>
      have hstep : addFirst i (s :: rest) it
          = (s :: (addFirst (i + 1) rest it).1, (addFirst (i + 1) rest it).2.1,
             (addFirst (i + 1) rest it).2.2.1, (addFirst (i + 1) rest it).2.2.2) := by
        simp [addFirst, hE]
      rw [hstep] at heq
      have h1 : sl = s :: (addFirst (i + 1) rest it).1 := (congrArg Prod.fst heq).symm
      have h2 : (addFirst (i + 1) rest it).2.1 = it2 := congrArg (fun p => p.2.1) heq
      have h3 : (addFirst (i + 1) rest it).2.2.2 = false := congrArg (fun p => p.2.2.2) heq
      have heq' : addFirst (i + 1) rest it
          = ((addFirst (i + 1) rest it).1, (addFirst (i + 1) rest it).2.1,
             (addFirst (i + 1) rest it).2.2.1, false) := by
        rw [← h3]
      obtain ⟨hsl, hit2, hall⟩ := ih (i + 1) it _ _ _ hIt heq'
      refine ⟨by rw [h1, hsl], by rw [← h2, hit2], ?_⟩
      intro x hx
      rcases List.mem_cons.mp hx with h0 | hr
      · rw [h0]; exact hE
      · exact hall x hr
    | false =>
      have hIt' : it.count = 0 := by simpa [Stack.Empty] using hIt
      have hb : (s.AddStack it).2.Empty = true := by
        cases hCs : s.Comparable it with
        | true => simp [Stack.AddStack, hCs, Stack.Empty, hIt']
        | false => simp [Stack.AddStack, hCs, Stack.Empty, hIt']
      have hstep : addFirst i (s :: rest) it
          = ((s.AddStack it).1 :: rest, (s.AddStack it).2, [(i, (s.AddStack it).1)], true) := by
        simp [addFirst, hE, hb]
      rw [hstep] at heq
      have h4 : true = false := congrArg (fun p => p.2.2.2) heq
      cases h4

theorem addSecond_done_of_empty_it (i : Nat) (s : Stack) (rest : List Stack) (it : Stack)
    (hIt : it.Empty = true) (hs : s.Empty = true) :
    (addSecond i (s :: rest) it).2.2.2 = true := by
  have hIt' : it.count = 0 := by simpa [Stack.Empty] using hIt
  have hs' : s.count = 0 := by simpa [Stack.Empty] using hs
  simp [addSecond, hs', Stack.AddStack, Stack.Comparable, NewStack, Stack.Item,
    Stack.MaxCount, Stack.Empty, hIt']

/-- C5: when `AddItem` fails with the insufficient-capacity error, the
partially written state it leaves behind has no capacity left for the
incoming resource: every slot that is empty or comparable to the incoming
stack is filled to its maximum. -/
theorem addItem_failure_full (inv : Inventory) (it : Stack)
    (h : (inv.AddItem it).1 = Except.error Err.InsufficientCapacity) :
    ∀ s ∈ ((inv.AddItem it).2.1).slots,
      (s.Empty = true ∨ s.Comparable it = true) → s.MaxCount ≤ s.count := by
  by_cases h1 : (addFirst 0 inv.slots it).2.2.2 = true
  · simp [Inventory.AddItem, h1] at h
  · by_cases h2 : (addSecond 0 (addFirst 0 inv.slots it).1 (addFirst 0 inv.slots it).2.1).2.2.2 = true
    · simp [Inventory.AddItem, h1, h2] at h
    · have h1' : (addFirst 0 inv.slots it).2.2.2 = false := by
        cases hv : (addFirst 0 inv.slots it).2.2.2 with
        | false => rfl
        | true => exact absurd hv h1
      have h2' : (addSecond 0 (addFirst 0 inv.slots it).1
          (addFirst 0 inv.slots it).2.1).2.2.2 = false := by
        cases hv : (addSecond 0 (addFirst 0 inv.slots it).1
            (addFirst 0 inv.slots it).2.1).2.2.2 with
        | false => rfl
        | true => exact absurd hv h2
      have hres : ((inv.AddItem it).2.1).slots
          = (addSecond 0 (addFirst 0 inv.slots it).1 (addFirst 0 inv.slots it).2.1).1 := by
        simp [Inventory.AddItem, h1', h2']
      rw [hres]
      have hXeq : addFirst 0 inv.slots it
          = ((addFirst 0 inv.slots it).1, (addFirst 0 inv.slots it).2.1,
             (addFirst 0 inv.slots it).2.2.1, false) := by
        rw [← h1']
      have hYeq : addSecond 0 (addFirst 0 inv.slots it).1 (addFirst 0 inv.slots it).2.1
          = ((addSecond 0 (addFirst 0 inv.slots it).1 (addFirst 0 inv.slots it).2.1).1,
             (addSecond 0 (addFirst 0 inv.slots it).1 (addFirst 0 inv.slots it).2.1).2.1,
             (addSecond 0 (addFirst 0 inv.slots it).1 (addFirst 0 inv.slots it).2.1).2.2.1,
             false) := by
        rw [← h2']
      cases hIt : it.Empty with
      | false =>
        obtain ⟨hne, hty, hfull⟩ := addFirst_not_done inv.slots 0 it _ _ _ hIt hXeq
        have hin' : ∀ s ∈ (addFirst 0 inv.slots it).1, s.Empty = false →
            s.Comparable (addFirst 0 inv.slots it).2.1 = true → s.MaxCount ≤ s.count := by
          intro x hx he hcx
          refine hfull x hx he ?_
          rw [← comparable_of_itemType hty x]
          exact hcx
        have hAS := addSecond_not_done (addFirst 0 inv.slots it).1 0
          (addFirst 0 inv.slots it).2.1 _ _ _ hne hYeq hin'
        intro x hx hcond
        refine hAS x hx ?_
        rcases hcond with hc | hc
        · exact Or.inl hc
        · refine Or.inr ?_
          rw [comparable_of_itemType hty x]
          exact hc
      | true =>
        obtain ⟨hsl, hit2, hallE⟩ := addFirst_empty_it inv.slots 0 it _ _ _ hIt hXeq
        cases hcase : (addFirst 0 inv.slots it).1 with
        | nil =>
          intro x hx hcond
          simp [addSecond] at hx
        | cons a l =>
          exfalso
          have ha : a.Empty = true := by
            apply hallE
            rw [← hsl, hcase]
            exact List.mem_cons_self a l
          have hdone := addSecond_done_of_empty_it 0 a l (addFirst 0 inv.slots it).2.1
            (by rw [hit2]; exact hIt) ha
          rw [hcase] at h2
          exact h2 hdone

/-- Witness for C5: a one-slot container holding 1 of a resource whose
per-stack maximum is 2; adding 5 more fails, and the slot is left full. -/
theorem addItem_failure_full_witness :
    Stack.MaxCount ⟨⟨1, 2⟩, 2⟩ ≤ Stack.count ⟨⟨1, 2⟩, 2⟩ :=
  addItem_failure_full ⟨[⟨⟨1, 2⟩, 1⟩], true⟩ ⟨⟨1, 2⟩, 5⟩ rfl ⟨⟨1, 2⟩, 2⟩
    (by decide) (by decide)
